import Mathlib

/-
  Verification of the medicine-name extraction engine
  (repository dmd_medicine_processor, file medicine_parser.py).

  Strings are modelled as `List Char`.  Python regular expressions are
  hand-compiled into deterministic prefix matchers that reproduce the
  backtracking semantics of the concrete patterns of the source
  (each pattern is simple enough that greedy matching with ordered
  alternation is exactly Python's behaviour; this is argued at each
  definition).  The two external model calls (the main completion and
  the patch-duration completion) are modelled as explicit parameters:
  `none` models a raised transport exception, `some r` a response text.
-/

namespace MedProc

/-- Whitespace characters of Python's `\s` and `str.strip` (ASCII model). -/
def isPySpace (c : Char) : Bool :=
  c = ' ' || c = '\t' || c = '\n' || c = '\r' || c = '\x0b' || c = '\x0c'

/-- Python `str.lower`, restricted to ASCII letters (`Char.toLower`). -/
def pyLower (l : List Char) : List Char := l.map Char.toLower

/-- Python `str.strip()`: remove leading and trailing whitespace. -/
def pyStrip (l : List Char) : List Char :=
  ((l.dropWhile isPySpace).reverse.dropWhile isPySpace).reverse

/-- Python `str.rstrip(cs)`: remove trailing characters drawn from `cs`. -/
def pyRstrip (cs : List Char) (l : List Char) : List Char :=
  (l.reverse.dropWhile (fun c => cs.contains c)).reverse

/-- Python substring test `needle in hay`. -/
def containsSub (hay needle : List Char) : Bool :=
  needle.isPrefixOf hay ||
    match hay with
    | [] => false
    | _ :: t => containsSub t needle

/-- True when the list starts with a decimal digit. -/
def beginsWithDigit (l : List Char) : Bool :=
  match l with
  | [] => false
  | c :: _ => c.isDigit

/-- Worker for `replaceAll`: removes every left-to-right non-overlapping
occurrence of `o :: os`.  The fuel bounds the recursion depth and is
initialised with the length of the list, which suffices because every
step consumes at least one character. -/
def replaceAllGo (o : Char) (os : List Char) : Nat → List Char → List Char
  | 0, l => l
  | _ + 1, [] => []
  | fuel + 1, c :: r =>
    if (o :: os).isPrefixOf (c :: r) then replaceAllGo o os fuel (r.drop os.length)
    else c :: replaceAllGo o os fuel r

/-- Python `s.replace(old, "")`: every left-to-right non-overlapping
occurrence of `old` is removed (identity when `old` is empty). -/
def replaceAll (s old : List Char) : List Char :=
  match old with
  | [] => s
  | o :: os => replaceAllGo o os s.length s

/-- Worker for `removeFirst`. -/
def removeFirstGo (o : Char) (os : List Char) : List Char → List Char
  | [] => []
  | c :: r =>
    if (o :: os).isPrefixOf (c :: r) then r.drop os.length
    else c :: removeFirstGo o os r

/-- Removal of only the first literal occurrence of `old` from `s`
(the operation named by claim C1; Python `str.replace` does not do this). -/
def removeFirst (s old : List Char) : List Char :=
  match old with
  | [] => s
  | o :: os => removeFirstGo o os s

/-- Python `re.sub(r'^Generic\s+', '', l)`: the anchored pattern fires at
most once, removing a leading case-sensitive `Generic` together with the
following run of whitespace (at least one whitespace is required). -/
def subGenericLead (l : List Char) : List Char :=
  if ("Generic".data).isPrefixOf l then
    let r := l.drop 7
    if (r.takeWhile isPySpace).isEmpty then l else r.dropWhile isPySpace
  else l

/-- One attempted match of `\s+sterile\s+` at the head of `l`; returns the
number of consumed characters.  Both `\s+` are greedy and, since `sterile`
starts with a non-space letter, maximal munch is exactly Python's
behaviour. -/
def sterileAt (l : List Char) : Option Nat :=
  let sp := l.takeWhile isPySpace
  if sp.isEmpty then none
  else
    let r := l.drop sp.length
    if ("sterile".data).isPrefixOf r then
      let r2 := r.drop 7
      let sp2 := r2.takeWhile isPySpace
      if sp2.isEmpty then none else some (sp.length + 7 + sp2.length)
    else none

/-- Worker for `subSterile`; the fuel bounds the recursion depth and is
initialised with the length of the list, which suffices because every
step consumes at least one character. -/
def subSterileGo : Nat → List Char → List Char
  | 0, l => l
  | _ + 1, [] => []
  | fuel + 1, c :: r =>
    match sterileAt (c :: r) with
    | some n => ' ' :: subSterileGo fuel ((c :: r).drop n)
    | none => c :: subSterileGo fuel r

/-- Python `re.sub(r'\s+sterile\s+', ' ', l)`: every non-overlapping
match, scanned left to right, is replaced by a single space. -/
def subSterile (l : List Char) : List Char := subSterileGo l.length l

/-- Worker for `collapseWs`, fuelled like `subSterileGo`. -/
def collapseWsGo : Nat → List Char → List Char
  | 0, l => l
  | _ + 1, [] => []
  | fuel + 1, c :: r =>
    if isPySpace c then ' ' :: collapseWsGo fuel (r.dropWhile isPySpace)
    else c :: collapseWsGo fuel r

/-- Python `re.sub(r'\s+', ' ', l)`: every maximal whitespace run becomes
a single space. -/
def collapseWs (l : List Char) : List Char := collapseWsGo l.length l

/-
  Prefix matchers.  A matcher takes the text and returns `some tok` when
  the pattern matches a prefix, where `tok` is the consumed slice of the
  original text (so case is preserved), or `none` otherwise.
-/

/-- Sequencing of two prefix matchers. -/
def pSeq (a b : List Char → Option (List Char)) : List Char → Option (List Char) :=
  fun l =>
    match a l with
    | none => none
    | some x =>
      match b (l.drop x.length) with
      | none => none
      | some y => some (x ++ y)

/-- Ordered alternation of two prefix matchers (Python tries the left
alternative first). -/
def pAlt (a b : List Char → Option (List Char)) : List Char → Option (List Char) :=
  fun l =>
    match a l with
    | some x => some x
    | none => b l

/-- Greedy option `(?:...)?`: match if possible, otherwise consume nothing. -/
def pOpt (a : List Char → Option (List Char)) : List Char → Option (List Char) :=
  fun l =>
    match a l with
    | some x => some x
    | none => some []

/-- Empty matcher (consumes nothing, always succeeds). -/
def pEps : List Char → Option (List Char) := fun _ => some []

/-- Case-insensitive literal (`pat` is given lowercase); returns the
original slice of the text. -/
def pLit (pat : List Char) : List Char → Option (List Char) :=
  fun l =>
    if pyLower (l.take pat.length) = pat then some (l.take pat.length) else none

/-- Single-character literal. -/
def pChar (c : Char) : List Char → Option (List Char)
  | x :: _ => if x = c then some [x] else none
  | [] => none

/-- Matcher for `\d+(?:\.\d+)?`.  Both pieces are greedy; backtracking
into the digits or the optional fraction can never turn a failing
continuation into a success for any pattern of this file (what follows is
always `\s*` and a unit letter or `/`, none of which a digit or a dot can
satisfy), so the deterministic greedy reading is exact. -/
def pNumber : List Char → Option (List Char) :=
  fun l =>
    if (l.takeWhile Char.isDigit).isEmpty then none
    else
      match l.drop (l.takeWhile Char.isDigit).length with
      | '.' :: r2 =>
        if (r2.takeWhile Char.isDigit).isEmpty then some (l.takeWhile Char.isDigit)
        else some (l.takeWhile Char.isDigit ++ '.' :: r2.takeWhile Char.isDigit)
      | _ => some (l.takeWhile Char.isDigit)

/-- Matcher for `\s*` (greedy, always succeeds). -/
def pSpaces0 : List Char → Option (List Char) :=
  fun l => some (l.takeWhile isPySpace)

/-- Matcher for `\s+` (greedy, at least one whitespace). -/
def pSpaces1 : List Char → Option (List Char) :=
  fun l =>
    if (l.takeWhile isPySpace).isEmpty then none else some (l.takeWhile isPySpace)

/-- Ordered alternation over a list of case-insensitive unit literals,
each followed by the same continuation `tail`; failure of the
continuation falls through to the next literal, exactly as Python
backtracks through an alternation. -/
def pAnyUnitThen : List (List Char) → (List Char → Option (List Char)) →
    List Char → Option (List Char)
  | [], _, _ => none
  | u :: us, tail, l => pAlt (pSeq (pLit u) tail) (pAnyUnitThen us tail) l

/-- Numerator units of the ratio alternative of `strength_pattern`:
`micrograms|mcg|mg|g|ml|%`. -/
def ratioNumUnits : List (List Char) :=
  ["micrograms".data, "mcg".data, "mg".data, "g".data, "ml".data, "%".data]

/-- Units of the bare alternative of `strength_pattern`:
`micrograms|mcg|mg|g|ml`. -/
def bareUnits : List (List Char) :=
  ["micrograms".data, "mcg".data, "mg".data, "g".data, "ml".data]

/-- Matcher for the tail `/(?:\d+(?:\.\d+)?)?\s*(?:ml|l)?` of the ratio
alternative of `strength_pattern`. -/
def ratioTailM : List Char → Option (List Char) :=
  pSeq (pChar '/')
    (pSeq (pOpt pNumber)
      (pSeq pSpaces0 (pOpt (pAlt (pLit ("ml".data)) (pLit ("l".data))))))

/-- Matcher for `strength_pattern` at a fixed position:
`(\d+(?:\.\d+)?)\s*(?:micrograms|mcg|mg|g|ml|%)/(?:\d+(?:\.\d+)?)?\s*(?:ml|l)?`
then, on failure, `(\d+(?:\.\d+)?)\s*(?:micrograms|mcg|mg|g|ml)`
(case-insensitive). -/
def matchStrengthAt : List Char → Option (List Char) :=
  pAlt
    (pSeq pNumber (pSeq pSpaces0 (pAnyUnitThen ratioNumUnits ratioTailM)))
    (pSeq pNumber (pSeq pSpaces0 (pAnyUnitThen bareUnits pEps)))

/-- Matcher for `tablets?`-style alternatives: a core literal followed by
an optional `s`. -/
def formPlural (core : List Char) : List Char → Option (List Char) :=
  pSeq (pLit core) (pOpt (pLit ("s".data)))

/-- Matcher for `(?:pre-filled\s+)?syringes?`. -/
def formSyringe : List Char → Option (List Char) :=
  pAlt (pSeq (pLit ("pre-filled".data)) (pSeq pSpaces1 (formPlural ("syringe".data))))
    (formPlural ("syringe".data))

/-- Matcher for `(?:transdermal\s+)?patches?`.  Note the source pattern
requires the letter `e`: it matches `patche` or `patches` but not the
bare word `patch`. -/
def formPatch : List Char → Option (List Char) :=
  pAlt (pSeq (pLit ("transdermal".data)) (pSeq pSpaces1 (formPlural ("patche".data))))
    (formPlural ("patche".data))

/-- Matcher for `oral\s+solution`. -/
def formOral : List Char → Option (List Char) :=
  pSeq (pLit ("oral".data)) (pSeq pSpaces1 (pLit ("solution".data)))

/-- Matcher for `formulation_pattern` at a fixed position, with the
alternatives in the order of the source. -/
def matchFormulationAt : List Char → Option (List Char) :=
  pAlt (formPlural ("tablet".data)) (pAlt (formPlural ("capsule".data))
    (pAlt formSyringe (pAlt formPatch (pAlt formOral
    (pAlt (pLit ("suspension".data)) (pAlt (pLit ("cream".data))
    (pAlt (pLit ("ointment".data)) (pAlt (pLit ("injection".data))
    (pAlt (pLit ("powder".data)) (pAlt (pLit ("liquid".data))
    (pAlt (formPlural ("ampoule".data)) (formPlural ("bottle".data)))))))))))))

/-- Unit alternatives of `patch_duration_pattern`. -/
def durationUnits : List (List Char) :=
  ["day".data, "days".data, "hour".data, "hours".data, "hr".data, "hrs".data]

/-- Matcher for `patch_duration_pattern` at a fixed position:
`(\d+(?:\.\d+)?)\s*(?:day|days|hour|hours|hr|hrs)` (case-insensitive). -/
def matchDurationAt : List Char → Option (List Char) :=
  pSeq pNumber (pSeq pSpaces0 (pAnyUnitThen durationUnits pEps))

/-- Python `pattern.search`: scan positions left to right and report the
first position where the matcher succeeds, together with the match. -/
def searchIdx (m : List Char → Option (List Char)) : Nat → List Char → Option (Nat × List Char)
  | i, [] =>
    match m [] with
    | some x => some (i, x)
    | none => none
  | i, c :: r =>
    match m (c :: r) with
    | some x => some (i, x)
    | none => searchIdx m (i + 1) r

/-- `group(0)` of a `search`: the leftmost match. -/
def reSearch (m : List Char → Option (List Char)) (l : List Char) : Option (List Char) :=
  (searchIdx m 0 l).map Prod.snd

/-- `self.strength_pattern.search(s)`, returning `group(0)`. -/
def searchStrength : List Char → Option (List Char) := reSearch matchStrengthAt

/-- `self.formulation_pattern.search(s)`, returning `group(0)`. -/
def searchFormulation : List Char → Option (List Char) := reSearch matchFormulationAt

/-- `self.patch_duration_pattern.search(s)`, returning `group(0)`. -/
def searchPatchDuration : List Char → Option (List Char) := reSearch matchDurationAt

/-- The anchored `re.match(r'(\d+)\s*(?:day|days|hour|hours|hr|hrs)', l)`
of `clean_duration`, returning `group(1)` (the digits) on success.  The
pattern is case-sensitive; `clean_duration` only applies it to an already
lowercased string. -/
def matchCleanDur (l : List Char) : Option (List Char) :=
  if (l.takeWhile Char.isDigit).isEmpty then none
  else if durationUnits.any (fun u =>
      u.isPrefixOf ((l.drop (l.takeWhile Char.isDigit).length).dropWhile isPySpace)) then
    some (l.takeWhile Char.isDigit)
  else none

/-- `MedicineGroqParser.clean_duration` (medicine_parser.py lines 63-78). -/
def clean_duration (duration : List Char) : List Char :=
  if duration.isEmpty then []
  else
    match matchCleanDur (pyStrip (pyLower duration)) with
    | some number =>
      if containsSub (pyStrip (pyLower duration)) ("hour".data) ||
          containsSub (pyStrip (pyLower duration)) ("hr".data) then
        number ++ (" hours".data)
      else number ++ (" days".data)
    | none => []

/-- `MedicineGroqParser.get_patch_duration_from_llm` (lines 34-61); the
model reply is a parameter, `none` modelling a raised exception (which
the source catches, returning the empty string). -/
def get_patch_duration_from_llm (reply : Option (List Char)) : List Char :=
  match reply with
  | none => []
  | some r =>
    if pyLower (pyStrip r) = ("unknown".data) then []
    else clean_duration (pyLower (pyStrip r))

/-- Python dictionaries with string keys and values, as insertion-ordered
association lists with unique keys. -/
abbrev Jdict := List (List Char × List Char)

/-- Dictionary membership test. -/
def jhas : Jdict → List Char → Bool
  | [], _ => false
  | (k, _) :: t, key => k = key || jhas t key

/-- Dictionary lookup, `d.get(key)`. -/
def jget : Jdict → List Char → Option (List Char)
  | [], _ => none
  | (k, v) :: t, key => if k = key then some v else jget t key

/-- Worker for `jset`: overwrite the value at an existing key. -/
def jsetGo : Jdict → List Char → List Char → Jdict
  | [], _, _ => []
  | (k, v) :: t, key, val =>
    if k = key then (key, val) :: jsetGo t key val else (k, v) :: jsetGo t key val

/-- Dictionary assignment `d[key] = val`: overwrite in place when the key
exists, otherwise append (Python insertion order). -/
def jset (d : Jdict) (key val : List Char) : Jdict :=
  if jhas d key then jsetGo d key val else d ++ [(key, val)]

/-- Python falsiness of `d.get(key)` for string values: missing key,
`None`, or the empty string. -/
def jfalsy (x : Option (List Char)) : Bool :=
  match x with
  | none => true
  | some v => v.isEmpty

/-- JSON inter-token whitespace. -/
def jsonWs (c : Char) : Bool := c = ' ' || c = '\t' || c = '\n' || c = '\r'

/-- Drop JSON whitespace. -/
def skipWs (l : List Char) : List Char := l.dropWhile jsonWs

/-- Parse a JSON string literal without escape sequences; returns the
body and the remaining text. -/
def parseJStr : List Char → Option (List Char × List Char)
  | '"' :: r =>
    let body := r.takeWhile (fun c => c ≠ '"' && c ≠ '\\')
    (match r.drop body.length with
     | '"' :: rest => some (body, rest)
     | _ => none)
  | _ => none

/-- Parse the comma-separated members of a JSON object (fuelled; the fuel
is initialised with the length of the text, which bounds the number of
members). -/
def parsePairs : Nat → Jdict → List Char → Option Jdict
  | 0, _, _ => none
  | fuel + 1, acc, l =>
    match parseJStr (skipWs l) with
    | none => none
    | some (k, r1) =>
      match skipWs r1 with
      | ':' :: r2 =>
        (match parseJStr (skipWs r2) with
         | none => none
         | some (v, r3) =>
           let acc2 := jset acc k v
           match skipWs r3 with
           | ',' :: r4 => parsePairs fuel acc2 r4
           | '\x7d' :: r5 => if (skipWs r5).isEmpty then some acc2 else none
           | _ => none)
      | _ => none

/-- Model of `json.loads` restricted to the fragment the engine consumes:
a flat object whose keys and values are escape-free strings.  Every other
response text is mapped to `none`, which the engine treats exactly as the
source treats a `JSONDecodeError` or `AttributeError` (fallback to the
pattern extractor); responses outside this fragment are not exercised by
the claims. -/
def jsonParse (l : List Char) : Option Jdict :=
  match skipWs l with
  | '\x7b' :: r =>
    (match skipWs r with
     | '\x7d' :: r2 => if (skipWs r2).isEmpty then some [] else none
     | _ => parsePairs l.length [] r)
  | _ => none

/-- The fence stripping of lines 111-112: a response that starts with
the seven characters of a backtick-json fence loses its first seven and
last three characters (`response_text[7:-3]`). -/
def stripFence (resp : List Char) : List Char :=
  if ("```json".data).isPrefixOf resp then
    let r := resp.drop 7
    r.take (r.length - 3)
  else resp

def kName : List Char := "name".data
def kStrength : List Char := "strength".data
def kFormulation : List Char := "formulation".data
def kDuration : List Char := "duration".data
def kVPID : List Char := "VPID".data
def kOriginalName : List Char := "original_name".data
def patchLit : List Char := "patch".data

/-- The name cleanup of lines 150-159.  The strength and formulation
matches of lines 144-148 are recomputed here; the searches are pure, so
this factoring is semantics-preserving. -/
def regexCleanName (medicine_string : List Char) : List Char :=
  let strength := (searchStrength medicine_string).getD []
  let formulation := (searchFormulation medicine_string).getD []
  let name1 := if strength.isEmpty then medicine_string else replaceAll medicine_string strength
  let name2 := if formulation.isEmpty then name1 else replaceAll name1 formulation
  pyRstrip (" -,.".data) (pyStrip (collapseWs (subSterile (subGenericLead name2))))

/-- The dict literal of lines 161-165. -/
def regexBase (medicine_string : List Char) : Jdict :=
  [(kName, regexCleanName medicine_string),
   (kStrength, (searchStrength medicine_string).getD []),
   (kFormulation, (searchFormulation medicine_string).getD [])]

/-- `MedicineGroqParser.extract_components_regex` (lines 142-175).  The
patch-duration model call of line 173 is the parameter `patchReply`. -/
def extract_components_regex (medicine_string : List Char) (patchReply : Option (List Char)) : Jdict :=
  if containsSub (pyLower medicine_string) patchLit then
    match searchPatchDuration medicine_string with
    | some g => regexBase medicine_string ++ [(kDuration, clean_duration g)]
    | none => regexBase medicine_string ++ [(kDuration, get_patch_duration_from_llm patchReply)]
  else regexBase medicine_string

/-- Lines 116-118: fill a falsy strength from the pattern search. -/
def fillStrength (medicine_string : List Char) (d : Jdict) : Jdict :=
  if jfalsy (jget d kStrength) then
    jset d kStrength ((searchStrength medicine_string).getD [])
  else d

/-- Lines 120-122: fill a falsy formulation from the pattern search. -/
def fillFormulation (medicine_string : List Char) (d : Jdict) : Jdict :=
  if jfalsy (jget d kFormulation) then
    jset d kFormulation ((searchFormulation medicine_string).getD [])
  else d

/-- Lines 124-130: the patch-duration cascade applied to the parsed
response dict. -/
def applyPatchDuration (medicine_string : List Char) (patchReply : Option (List Char)) (d : Jdict) : Jdict :=
  if containsSub (pyLower medicine_string) patchLit then
    match searchPatchDuration medicine_string with
    | some g => jset d kDuration (clean_duration g)
    | none =>
      if jfalsy (jget d kDuration) then
        jset d kDuration (get_patch_duration_from_llm patchReply)
      else d
  else d

/-- Lines 115-132 of `extract_components`: the continuation applied to a
successfully parsed model response (fill falsy strength/formulation from
the patterns, then the patch-duration cascade). -/
def validateAndClean (medicine_string : List Char) (result0 : Jdict) (patchReply : Option (List Char)) : Jdict :=
  applyPatchDuration medicine_string patchReply
    (fillFormulation medicine_string (fillStrength medicine_string result0))

/-- `MedicineGroqParser.extract_components` (lines 80-140).  `apiResponse`
is the outcome of the main model call (`none` = transport exception,
caught at line 138); `patchReply` is the outcome of the patch-duration
call used by both this function and the fallback. -/
def extract_components (medicine_string : List Char) (apiResponse : Option (List Char))
    (patchReply : Option (List Char)) : Jdict :=
  match apiResponse with
  | none => extract_components_regex medicine_string patchReply
  | some resp =>
    match jsonParse (stripFence resp) with
    | none => extract_components_regex medicine_string patchReply
    | some result => validateAndClean medicine_string result patchReply

/-- One iteration of the loop of `process_medicine_list` (lines 181-196).
Returns `none` when the mandatory key accesses `components['name']`,
`['strength']`, `['formulation']` would raise `KeyError`. -/
def processItem (nm vpid : List Char) (apiResponse patchReply : Option (List Char)) : Option Jdict :=
  let components := extract_components nm apiResponse patchReply
  match jget components kName, jget components kStrength, jget components kFormulation with
  | some nameV, some st, some fo =>
    let base : Jdict :=
      [(kVPID, vpid), (kOriginalName, nm), (kName, nameV), (kStrength, st), (kFormulation, fo)]
    some (if containsSub (pyLower nm) patchLit then
            base ++ [(kDuration, (jget components kDuration).getD [])]
          else base)
  | _, _, _ => none

/-- `MedicineGroqParser.process_medicine_list` (lines 177-198).  Each
input item carries its name `NM`, its `VPID`, and the outcomes of the two
model calls made for it; a `KeyError` anywhere aborts the whole batch
(the source has no handler around the loop), modelled by `none`. -/
def process_medicine_list
    (meds : List ((List Char × List Char) × (Option (List Char) × Option (List Char)))) :
    Option (List Jdict) :=
  meds.mapM (fun x => processItem x.1.1 x.1.2 x.2.1 x.2.2)

/-
  Specification-side definitions, each following the words of a claim.
-/

/-- Name pipeline following claim C1's words literally: remove the FIRST
literal occurrence of the matched strength, then the FIRST literal
occurrence of the matched formulation, strip a leading Generic token,
collapse runs around sterile, collapse whitespace, trim, trim trailing
space/hyphen/comma/period. -/
def cleanedNameFirstOcc (ms : List Char) : List Char :=
  let strength := (searchStrength ms).getD []
  let formulation := (searchFormulation ms).getD []
  let n1 := if strength.isEmpty then ms else removeFirst ms strength
  let n2 := if formulation.isEmpty then n1 else removeFirst n1 formulation
  pyRstrip (" -,.".data) (pyStrip (collapseWs (subSterile (subGenericLead n2))))

/-- Name pipeline following the amended claim C1: remove EVERY literal
occurrence of the matched strength, then EVERY literal occurrence of the
matched formulation, then the same cleanup steps in the same order. -/
def cleanedNameAllOcc (ms : List Char) : List Char :=
  let strength := (searchStrength ms).getD []
  let formulation := (searchFormulation ms).getD []
  let n1 := if strength.isEmpty then ms else replaceAll ms strength
  let n2 := if formulation.isEmpty then n1 else replaceAll n1 formulation
  pyRstrip (" -,.".data) (pyStrip (collapseWs (subSterile (subGenericLead n2))))

/-- The anchored duration match together with the unit token it matched,
with the six unit alternatives tried in the order of the source pattern
(needed to state claim C6, which speaks about the matched unit token). -/
def matchCleanDurUnit (l : List Char) : Option (List Char × List Char) :=
  let d := l.takeWhile Char.isDigit
  if d.isEmpty then none
  else
    let r := (l.drop d.length).dropWhile isPySpace
    match durationUnits.find? (fun u => u.isPrefixOf r) with
    | some u => some (d, u)
    | none => none

/-- Duration normalizer following claim C6's words: the hours/days choice
is driven by the MATCHED UNIT TOKEN (not by the whole input string). -/
def cleanDurationUnitToken (duration : List Char) : List Char :=
  if duration.isEmpty then []
  else
    let d := pyStrip (pyLower duration)
    match matchCleanDurUnit d with
    | some (number, unit) =>
      if containsSub unit ("hour".data) || containsSub unit ("hr".data) then
        number ++ (" hours".data)
      else number ++ (" days".data)
    | none => []

/-- Duration normalizer following the amended claim C6: lowercase and
trim, match `(\d+)\s*(day|days|hour|hours|hr|hrs)` anchored at the start,
and emit hours when the WHOLE lowercased trimmed input contains `hour` or
`hr`, days otherwise; empty on no match.  Written over `span`-style
primitives, independently of `clean_duration`. -/
def cleanDurationWholeString (duration : List Char) : List Char :=
  if duration.isEmpty then []
  else if ((pyStrip (pyLower duration)).takeWhile Char.isDigit).isEmpty then []
  else if durationUnits.any (fun u =>
      u.isPrefixOf (((pyStrip (pyLower duration)).drop
        ((pyStrip (pyLower duration)).takeWhile Char.isDigit).length).dropWhile isPySpace)) then
    if containsSub (pyStrip (pyLower duration)) ("hour".data) ||
        containsSub (pyStrip (pyLower duration)) ("hr".data) then
      (pyStrip (pyLower duration)).takeWhile Char.isDigit ++ (" hours".data)
    else (pyStrip (pyLower duration)).takeWhile Char.isDigit ++ (" days".data)
  else []

/-- All decompositions of a list into a prefix and the matching suffix. -/
def splitsL (l : List Char) : List (List Char × List Char) :=
  (List.range (l.length + 1)).map (fun i => (l.take i, l.drop i))

/-- Every character is a decimal digit. -/
def allDigits (l : List Char) : Bool := l.all Char.isDigit

/-- Every character is whitespace. -/
def allSpace (l : List Char) : Bool := l.all isPySpace

/-- The token is a number of the shape `\d+(\.\d+)?`. -/
def isNumTok (l : List Char) : Bool :=
  (splitsL l).any (fun p =>
    !p.1.isEmpty && allDigits p.1 &&
      (p.2.isEmpty ||
        match p.2 with
        | c :: g => c == '.' && !g.isEmpty && allDigits g
        | [] => false))

/-- The token is, case-insensitively, one of the given unit spellings. -/
def isUnitIn (us : List (List Char)) (x : List Char) : Bool :=
  us.any (fun u => pyLower x == u)

/-- The token decomposes as number, whitespace, unit from `us`
(the bare strength form of claim C7, exhaustively over all split
points, so the predicate is complete for the grammar it states). -/
def isBareFormWith (us : List (List Char)) (tok : List Char) : Bool :=
  (splitsL tok).any (fun p =>
    isNumTok p.1 &&
      (splitsL p.2).any (fun q => allSpace q.1 && isUnitIn us q.2))

/-- The part after the slash decomposes as optional number, whitespace,
optional unit from `usDen`. -/
def isRatioTailWith (usDen : List (List Char)) (tok : List Char) : Bool :=
  (splitsL tok).any (fun p =>
    (p.1.isEmpty || isNumTok p.1) &&
      (splitsL p.2).any (fun q =>
        allSpace q.1 && (q.2.isEmpty || isUnitIn usDen q.2)))

/-- The token decomposes as number, whitespace, unit from `usNum`, a
slash, then a ratio tail over `usDen` (the ratio strength form). -/
def isRatioFormWith (usNum usDen : List (List Char)) (tok : List Char) : Bool :=
  (splitsL tok).any (fun p =>
    isNumTok p.1 &&
      (splitsL p.2).any (fun q =>
        allSpace q.1 &&
          (splitsL q.2).any (fun w =>
            isUnitIn usNum w.1 &&
              match w.2 with
              | c :: tail => c == '/' && isRatioTailWith usDen tail
              | [] => false)))

/-- Claim C7's strength grammar: ratio or bare form with every unit drawn
from the set micrograms, mcg, mg, g, ml, percent. -/
def strengthFormClaim (tok : List Char) : Bool :=
  isRatioFormWith ratioNumUnits ratioNumUnits tok || isBareFormWith ratioNumUnits tok

/-- The amended strength grammar: numerator units micrograms, mcg, mg, g,
ml, percent; denominator units ml or l; bare units micrograms, mcg, mg,
g, ml. -/
def strengthFormAmended (tok : List Char) : Bool :=
  isRatioFormWith ratioNumUnits ["ml".data, "l".data] tok || isBareFormWith bareUnits tok

/-- The token has the canonical duration shape: one or more digits
followed by a space and `days` or `hours`. -/
def isCanonDur (l : List Char) : Bool :=
  (splitsL l).any (fun p =>
    !p.1.isEmpty && allDigits p.1 &&
      (p.2 = (" days".data) || p.2 = (" hours".data)))

/-- Canonical duration or the empty string (claim C3's value set). -/
def canonOrEmpty (l : List Char) : Bool := l.isEmpty || isCanonDur l

/-- The fenced model response of claim C5. -/
def fenceResp : List Char := "```json\n\x7b\"name\":\"X\"\x7d\n```".data

/-- A model response whose duration field is not in canonical form. -/
def durResp : List Char :=
  "\x7b\"name\":\"Nicotine\",\"duration\":\"about three days\"\x7d".data

/-
  Lemmas about dictionaries.
-/

theorem jget_jsetGo_self (k v : List Char) :
    ∀ d : Jdict, jhas d k = true → jget (jsetGo d k v) k = some v := by
  intro d
  induction d with
  | nil => intro h; simp [jhas] at h
  | cons p t ih =>
    intro h
    obtain ⟨a, b⟩ := p
    by_cases hk : a = k
    · simp [jsetGo, hk, jget]
    · simp [jhas, hk] at h
      simp [jsetGo, hk, jget]
      exact ih h

theorem jget_append_singleton (k v k2 : List Char) (h : k2 ≠ k) :
    ∀ d : Jdict, jget (d ++ [(k, v)]) k2 = jget d k2 := by
  intro d
  induction d with
  | nil => simp [jget, Ne.symm h]
  | cons p t ih =>
    obtain ⟨a, b⟩ := p
    by_cases ha : a = k2
    · simp [jget, ha]
    · simp [jget, ha, ih]

theorem jget_jset_self (d : Jdict) (k v : List Char) :
    jget (jset d k v) k = some v := by
  unfold jset
  by_cases h : jhas d k = true
  · simp [h, jget_jsetGo_self k v d h]
  · simp [h]
    have hf : jhas d k = false := by
      cases hh : jhas d k
      · rfl
      · exact absurd hh h
    clear h
    induction d with
    | nil => simp [jget]
    | cons p t ih =>
      obtain ⟨a, b⟩ := p
      simp [jhas] at hf
      simp [jget, hf.1, ih hf.2]

theorem jget_jsetGo_ne (k v k2 : List Char) (h : k2 ≠ k) :
    ∀ d : Jdict, jget (jsetGo d k v) k2 = jget d k2 := by
  intro d
  induction d with
  | nil => simp [jsetGo]
  | cons p t ih =>
    obtain ⟨a, b⟩ := p
    by_cases hk : a = k
    · subst hk
      simp [jsetGo, jget, Ne.symm h, ih]
    · by_cases h2 : a = k2
      · simp [jsetGo, hk, jget, h2, h]
      · simp [jsetGo, hk, jget, h2, ih]

theorem jget_jset_ne (d : Jdict) (k v k2 : List Char) (h : k2 ≠ k) :
    jget (jset d k v) k2 = jget d k2 := by
  unfold jset
  by_cases hh : jhas d k
  · simp [hh, jget_jsetGo_ne k v k2 h d]
  · simp [hh, jget_append_singleton k v k2 h d]

/-
  Preservation lemmas for the post-parse continuation.
-/

/-- Assignment guarded by an arbitrary condition does not change the value
at a different key. -/
theorem jget_setIf_ne (c : Prop) [Decidable c] (d : Jdict) (k1 v k : List Char) (h : k ≠ k1) :
    jget (if c then jset d k1 v else d) k = jget d k := by
  split
  · exact jget_jset_ne d k1 v k h
  · rfl

theorem jget_fillStrength_ne (ms : List Char) (d : Jdict) (k : List Char) (h : k ≠ kStrength) :
    jget (fillStrength ms d) k = jget d k := by
  unfold fillStrength
  exact jget_setIf_ne _ d kStrength _ k h

theorem jget_fillFormulation_ne (ms : List Char) (d : Jdict) (k : List Char)
    (h : k ≠ kFormulation) : jget (fillFormulation ms d) k = jget d k := by
  unfold fillFormulation
  exact jget_setIf_ne _ d kFormulation _ k h

theorem jget_applyPatchDuration_ne (ms : List Char) (reply : Option (List Char)) (d : Jdict)
    (k : List Char) (h : k ≠ kDuration) : jget (applyPatchDuration ms reply d) k = jget d k := by
  unfold applyPatchDuration
  split
  · split
    · exact jget_jset_ne _ _ _ _ h
    · exact jget_setIf_ne _ d kDuration _ k h
  · rfl

theorem vac_ignores_other_keys (ms : List Char) (result : Jdict) (reply : Option (List Char))
    (k : List Char) (h1 : k ≠ kStrength) (h2 : k ≠ kFormulation) (h3 : k ≠ kDuration) :
    jget (validateAndClean ms result reply) k = jget result k := by
  unfold validateAndClean
  rw [jget_applyPatchDuration_ne _ _ _ _ h3, jget_fillFormulation_ne _ _ _ h2,
    jget_fillStrength_ne _ _ _ h1]

theorem vac_fills_strength (ms : List Char) (result : Jdict) (reply : Option (List Char))
    (h : jfalsy (jget result kStrength) = true) :
    jget (validateAndClean ms result reply) kStrength = some ((searchStrength ms).getD []) := by
  unfold validateAndClean
  rw [jget_applyPatchDuration_ne _ _ _ _ (by decide), jget_fillFormulation_ne _ _ _ (by decide)]
  unfold fillStrength
  simp only [h, if_true]
  exact jget_jset_self result kStrength _

theorem vac_fills_formulation (ms : List Char) (result : Jdict) (reply : Option (List Char))
    (h : jfalsy (jget result kFormulation) = true) :
    jget (validateAndClean ms result reply) kFormulation =
      some ((searchFormulation ms).getD []) := by
  unfold validateAndClean
  rw [jget_applyPatchDuration_ne _ _ _ _ (by decide)]
  unfold fillFormulation
  rw [jget_fillStrength_ne _ _ _ (by decide)]
  simp only [h, if_true]
  exact jget_jset_self _ kFormulation _

/-
  Lemmas about split enumerations and canonical durations.
-/

theorem mem_splitsL (a b : List Char) : (a, b) ∈ splitsL (a ++ b) := by
  unfold splitsL
  apply List.mem_map.mpr
  refine ⟨a.length, List.mem_range.mpr ?_, ?_⟩
  · simp [List.length_append]
    omega
  · rw [List.take_left, List.drop_left]

theorem splits_any_intro (f : List Char × List Char → Bool) (a b : List Char)
    (hf : f (a, b) = true) : (splitsL (a ++ b)).any f = true :=
  List.any_eq_true.mpr ⟨(a, b), mem_splitsL a b, hf⟩

theorem allDigits_takeWhile (l : List Char) : allDigits (l.takeWhile Char.isDigit) = true := by
  unfold allDigits
  apply List.all_eq_true.mpr
  intro a ha
  exact List.mem_takeWhile_imp ha

theorem allSpace_takeWhile (l : List Char) : allSpace (l.takeWhile isPySpace) = true := by
  unfold allSpace
  apply List.all_eq_true.mpr
  intro a ha
  exact List.mem_takeWhile_imp ha

theorem isCanonDur_intro (n tail : List Char) (h1 : n.isEmpty = false)
    (h2 : allDigits n = true) (h3 : tail = (" days".data) ∨ tail = (" hours".data)) :
    isCanonDur (n ++ tail) = true := by
  unfold isCanonDur
  apply splits_any_intro
  cases h3 with
  | inl he => simp [h1, h2, he]
  | inr he => simp [h1, h2, he]

theorem matchCleanDur_some (l n : List Char) (h : matchCleanDur l = some n) :
    n = l.takeWhile Char.isDigit ∧ n.isEmpty = false := by
  unfold matchCleanDur at h
  split at h
  · simp at h
  · rename_i hne
    split at h
    · injection h with h2
      refine ⟨h2.symm, ?_⟩
      rw [h2] at hne
      simpa using hne
    · simp at h

theorem clean_duration_canon (d : List Char) : canonOrEmpty (clean_duration d) = true := by
  unfold clean_duration
  split
  · decide
  · split
    · rename_i number hm
      obtain ⟨hn, hne⟩ := matchCleanDur_some _ _ hm
      have hd : allDigits number = true := by rw [hn]; exact allDigits_takeWhile _
      split
      · unfold canonOrEmpty
        rw [isCanonDur_intro number _ hne hd (Or.inr rfl)]
        simp
      · unfold canonOrEmpty
        rw [isCanonDur_intro number _ hne hd (Or.inl rfl)]
        simp
    · decide

theorem llm_duration_canon (reply : Option (List Char)) :
    canonOrEmpty (get_patch_duration_from_llm reply) = true := by
  cases reply with
  | none => decide
  | some r =>
    simp only [get_patch_duration_from_llm]
    by_cases hu : pyLower (pyStrip r) = ("unknown").data
    · rw [if_pos hu]
      decide
    · rw [if_neg hu]
      exact clean_duration_canon _

theorem takeWhile_digit_nil (l : List Char) (h : beginsWithDigit l = false) :
    l.takeWhile Char.isDigit = [] := by
  cases l with
  | nil => rfl
  | cons c r =>
    simp [beginsWithDigit] at h
    simp [List.takeWhile_cons, h]

/-
  Claim theorems.
-/

/-- C1 counterexample: Python `str.replace` removes every occurrence, not
only the first one, so the claimed pipeline (first-occurrence removal)
disagrees with the code on the input `5mg 5mg tablets`: the code returns
the empty name while the claimed pipeline returns `5mg`. -/
theorem c1_counterexample :
    jget (extract_components_regex (("5mg 5mg tablets").data) none) kName = some [] ∧
    cleanedNameFirstOcc (("5mg 5mg tablets").data) = ("5mg").data ∧
    (([] : List Char) ≠ ("5mg").data) :=
  ⟨by decide, by decide, by decide⟩

/-- C1 (amended): for every input string the pattern extractor derives
the cleaned name by removing EVERY literal occurrence of the matched
strength substring, then EVERY literal occurrence of the matched
formulation substring, stripping a leading Generic token, collapsing
whitespace-sterile-whitespace runs to a single space, collapsing
whitespace runs, trimming whitespace, and trimming trailing characters
from the set space, hyphen, comma, period; on input
`Generic Aspirin 325mg tablets` it returns name `Aspirin`, strength
`325mg`, formulation `tablets`. -/
theorem c1_name_pipeline :
    (∀ ms reply, jget (extract_components_regex ms reply) kName = some (cleanedNameAllOcc ms)) ∧
    jget (extract_components_regex (("Generic Aspirin 325mg tablets").data) none) kName =
      some (("Aspirin").data) ∧
    jget (extract_components_regex (("Generic Aspirin 325mg tablets").data) none) kStrength =
      some (("325mg").data) ∧
    jget (extract_components_regex (("Generic Aspirin 325mg tablets").data) none) kFormulation =
      some (("tablets").data) := by
  refine ⟨?_, by decide, by decide, by decide⟩
  intro ms reply
  have hb : jget (regexBase ms) kName = some (regexCleanName ms) := by
    simp [regexBase, jget]
  have heq : cleanedNameAllOcc ms = regexCleanName ms := rfl
  rw [heq]
  unfold extract_components_regex
  split
  · split
    · rw [jget_append_singleton kDuration _ kName (by decide), hb]
    · rw [jget_append_singleton kDuration _ kName (by decide), hb]
  · exact hb

/-- C2: evaluation of the code at the failing input `1mg x 11mgmg`.  The
extracted strength is `1mg`; removing all its occurrences splices the
fragments `1` and `mg` of `11mgmg` back together, so the final cleaned
name `x 1mg` still contains the strength substring, violating the
invariant the claim states. -/
theorem c2_splice_violation :
    jget (extract_components_regex (("1mg x 11mgmg").data) none) kStrength =
      some (("1mg").data) ∧
    jget (extract_components_regex (("1mg x 11mgmg").data) none) kName =
      some (("x 1mg").data) ∧
    containsSub (("x 1mg").data) (("1mg").data) = true :=
  ⟨by decide, by decide, by decide⟩

/-- C3 counterexample: on a patch input with no explicit duration, a
model response whose duration field is `about three days` is used as-is;
the resulting duration is neither canonical nor empty, refuting the
claim that every tier's value is normalized. -/
theorem c3_counterexample :
    jget (extract_components (("Nicotine patch").data) (some durResp) none) kDuration =
      some (("about three days").data) ∧
    canonOrEmpty (("about three days").data) = false :=
  ⟨by decide, by decide⟩

/-- C3 (amended): for patch inputs the duration is resolved by the
three-tier cascade in order (explicit in-text pattern, then the model
response's duration field, then the second narrower model query), first
success winning; the values produced by tiers one and three are always
canonical or empty, but tier two uses the model's duration field as-is,
without normalization. -/
theorem c3_cascade :
    (∀ ms result reply, containsSub (pyLower ms) patchLit = true →
      (∀ g, searchPatchDuration ms = some g →
        jget (validateAndClean ms result reply) kDuration = some (clean_duration g)) ∧
      (searchPatchDuration ms = none → jfalsy (jget result kDuration) = false →
        jget (validateAndClean ms result reply) kDuration = jget result kDuration) ∧
      (searchPatchDuration ms = none → jfalsy (jget result kDuration) = true →
        jget (validateAndClean ms result reply) kDuration =
          some (get_patch_duration_from_llm reply))) ∧
    (∀ g, canonOrEmpty (clean_duration g) = true) ∧
    (∀ reply, canonOrEmpty (get_patch_duration_from_llm reply) = true) := by
  refine ⟨?_, clean_duration_canon, llm_duration_canon⟩
  intro ms result reply hp
  have e2 : jget (fillFormulation ms (fillStrength ms result)) kDuration =
      jget result kDuration := by
    rw [jget_fillFormulation_ne _ _ _ (by decide), jget_fillStrength_ne _ _ _ (by decide)]
  refine ⟨?_, ?_, ?_⟩
  · intro g hg
    unfold validateAndClean applyPatchDuration
    simp only [hp, if_true, hg]
    exact jget_jset_self _ kDuration _
  · intro hg hfull
    unfold validateAndClean applyPatchDuration
    simp only [hp, if_true, hg]
    rw [e2, hfull]
    simp only [Bool.false_eq_true, if_false]
    exact e2
  · intro hg hempty
    unfold validateAndClean applyPatchDuration
    simp only [hp, if_true, hg]
    rw [e2, hempty]
    simp only [if_true]
    exact jget_jset_self _ kDuration _

/-- C3 witness: on `Fentanyl 72 hour transdermal patch` the explicit
in-text tier fires and wins. -/
theorem c3_cascade_witness :
    containsSub (pyLower (("Fentanyl 72 hour transdermal patch").data)) patchLit = true ∧
    searchPatchDuration (("Fentanyl 72 hour transdermal patch").data) =
      some (("72 hour").data) ∧
    jget (validateAndClean (("Fentanyl 72 hour transdermal patch").data) [] none) kDuration =
      some (clean_duration (("72 hour").data)) :=
  ⟨by decide, by decide, (c3_cascade.1 _ [] none (by decide)).1 _ (by decide)⟩

/-- C4: when the model call raises (modelled by `none`) or its response
fails JSON parsing, `extract_components` returns exactly the pattern
extractor's result for the same input, as a full replacement; the
function returns normally, so no error reaches the caller. -/
theorem c4_full_fallback :
    (∀ ms reply, extract_components ms none reply = extract_components_regex ms reply) ∧
    (∀ ms resp reply, jsonParse (stripFence resp) = none →
      extract_components ms (some resp) reply = extract_components_regex ms reply) := by
  constructor
  · intro ms reply
    rfl
  · intro ms resp reply h
    simp [extract_components, h]

/-- C4 witness: a non-JSON response falls back wholesale to the pattern
extractor. -/
theorem c4_full_fallback_witness :
    jsonParse (stripFence (("the model is down").data)) = none ∧
    extract_components (("Aspirin 75mg tablets").data) (some (("the model is down").data)) none =
      extract_components_regex (("Aspirin 75mg tablets").data) none :=
  ⟨by decide, c4_full_fallback.2 _ _ _ (by decide)⟩

/-- C5: on a successfully parsed model response, an empty or missing
strength (resp. formulation) is filled by the corresponding pattern
search on the same raw string; and the fenced response yields name `X`
with strength and formulation supplied by the pattern extractor. -/
theorem c5_merge_fill :
    (∀ ms resp reply parsed, jsonParse (stripFence resp) = some parsed →
      (jfalsy (jget parsed kStrength) = true →
        jget (extract_components ms (some resp) reply) kStrength =
          some ((searchStrength ms).getD [])) ∧
      (jfalsy (jget parsed kFormulation) = true →
        jget (extract_components ms (some resp) reply) kFormulation =
          some ((searchFormulation ms).getD []))) ∧
    (∀ ms reply,
      jget (extract_components ms (some fenceResp) reply) kName = some (("X").data) ∧
      jget (extract_components ms (some fenceResp) reply) kStrength =
        some ((searchStrength ms).getD []) ∧
      jget (extract_components ms (some fenceResp) reply) kFormulation =
        some ((searchFormulation ms).getD [])) := by
  constructor
  · intro ms resp reply parsed hp
    constructor
    · intro h
      simp only [extract_components, hp]
      exact vac_fills_strength ms parsed reply h
    · intro h
      simp only [extract_components, hp]
      exact vac_fills_formulation ms parsed reply h
  · intro ms reply
    have hp : jsonParse (stripFence fenceResp) = some [(("name").data, ("X").data)] := by decide
    refine ⟨?_, ?_, ?_⟩
    · simp only [extract_components, hp]
      rw [vac_ignores_other_keys ms _ reply kName (by decide) (by decide) (by decide)]
      decide
    · simp only [extract_components, hp]
      exact vac_fills_strength ms _ reply (by decide)
    · simp only [extract_components, hp]
      exact vac_fills_formulation ms _ reply (by decide)

/-- C5 witness: the fence example with a concrete raw string. -/
theorem c5_merge_fill_witness :
    jsonParse (stripFence fenceResp) = some [(("name").data, ("X").data)] ∧
    jget (extract_components (("Aspirin 75mg tablets").data) (some fenceResp) none) kStrength =
      some ((searchStrength (("Aspirin 75mg tablets").data)).getD []) :=
  ⟨by decide,
    (c5_merge_fill.1 (("Aspirin 75mg tablets").data) fenceResp none
      [(("name").data, ("X").data)] (by decide)).1 (by decide)⟩

/-- C6 counterexample: on `3 days 2 hours` the matched unit token is
`day`, which contains neither `hour` nor `hr`, so the claimed rule gives
`3 days`; the code checks the whole string and returns `3 hours`. -/
theorem c6_counterexample :
    cleanDurationUnitToken (("3 days 2 hours").data) = ("3 days").data ∧
    clean_duration (("3 days 2 hours").data) = ("3 hours").data :=
  ⟨by decide, by decide⟩

/-- C6 (amended): `clean_duration` lowercases and trims its input and
matches the digits-unit pattern anchored at the start; the hours/days
choice is driven by whether the WHOLE lowercased trimmed input contains
`hour` or `hr`; non-matching input yields the empty string; the five
listed examples hold. -/
theorem c6_whole_string_rule :
    (∀ d, clean_duration d = cleanDurationWholeString d) ∧
    clean_duration (("7 days").data) = ("7 days").data ∧
    clean_duration (("24 HOURS").data) = ("24 hours").data ∧
    clean_duration (("3 hrs").data) = ("3 hours").data ∧
    clean_duration (("unknown").data) = [] ∧
    clean_duration (("abc").data) = [] := by
  refine ⟨?_, by decide, by decide, by decide, by decide, by decide⟩
  intro d
  unfold clean_duration cleanDurationWholeString matchCleanDur
  split
  · rfl
  · by_cases h1 : ((pyStrip (pyLower d)).takeWhile Char.isDigit).isEmpty
    · simp [h1]
    · by_cases h2 : durationUnits.any (fun u =>
        u.isPrefixOf (((pyStrip (pyLower d)).drop
          ((pyStrip (pyLower d)).takeWhile Char.isDigit).length).dropWhile isPySpace))
      · simp [h1, h2]
      · simp [h1, h2]

/-- C8: evaluation of the code at the failing input.  A parsed model
response lacking a `name` key makes `process_medicine_list` raise a
`KeyError` (modelled by `none`): the batch produces no output list at
all, instead of a same-length list. -/
theorem c8_keyerror_crash :
    process_medicine_list [((("Foo").data, ("V1").data), (some (("\x7b\x7d").data), none))] =
      none := by decide

/-- C9 counterexample: on `Nicotine patches` (a patch input with no
explicit duration) the pattern extractor issues a model call, so its
output depends on the model reply: two different replies give different
results, refuting purity and the no-external-calls claim. -/
theorem c9_counterexample :
    extract_components_regex (("Nicotine patches").data) (some (("7 days").data)) ≠
      extract_components_regex (("Nicotine patches").data) (some (("24 hours").data)) := by
  decide

/-- C9 (amended): the pattern extractor is a deterministic function of
the compiled patterns, the input string, and the patch-duration model
reply; its output is independent of the model reply whenever the input
does not contain `patch` case-insensitively, or the explicit duration
pattern matches the input. -/
theorem c9_model_independence :
    (∀ ms r1 r2, containsSub (pyLower ms) patchLit = false →
      extract_components_regex ms r1 = extract_components_regex ms r2) ∧
    (∀ ms r1 r2 g, searchPatchDuration ms = some g →
      extract_components_regex ms r1 = extract_components_regex ms r2) := by
  constructor
  · intro ms r1 r2 h
    simp [extract_components_regex, h]
  · intro ms r1 r2 g h
    unfold extract_components_regex
    split
    · simp [h]
    · rfl

/-- C9 witness: a non-patch input is model-independent. -/
theorem c9_model_independence_witness :
    containsSub (pyLower (("Aspirin 75mg tablets").data)) patchLit = false ∧
    extract_components_regex (("Aspirin 75mg tablets").data) (some (("7 days").data)) =
      extract_components_regex (("Aspirin 75mg tablets").data) none :=
  ⟨by decide, c9_model_independence.1 _ _ _ (by decide)⟩

/-- C10: when the lowercased trimmed input does not begin with a digit,
`clean_duration` returns the empty string: the normalizing match is
anchored at the start of the input, not searched within it. -/
theorem c10_match_anchored :
    ∀ d, beginsWithDigit (pyStrip (pyLower d)) = false → clean_duration d = [] := by
  intro d h
  unfold clean_duration
  split
  · rfl
  · have hm : matchCleanDur (pyStrip (pyLower d)) = none := by
      unfold matchCleanDur
      simp [takeWhile_digit_nil _ h]
    rw [hm]

/-- C10 witness: `abc 5 days` has a number-unit token later in the
string, yet normalizes to the empty string. -/
theorem c10_match_anchored_witness :
    beginsWithDigit (pyStrip (pyLower (("abc 5 days").data))) = false ∧
    clean_duration (("abc 5 days").data) = [] :=
  ⟨by decide, c10_match_anchored _ (by decide)⟩

/-
  Lemmas for claim C7: every strength match is a verbatim slice of the
  input, found at the leftmost matching position, and has the grammar
  shape of the (amended) strength pattern.
-/

theorem searchIdx_spec (m : List Char → Option (List Char)) :
    ∀ (l : List Char) (i j : Nat) (tok : List Char),
      searchIdx m i l = some (j, tok) →
      i ≤ j ∧ m (l.drop (j - i)) = some tok ∧ ∀ t, t < j - i → m (l.drop t) = none := by
  intro l
  induction l with
  | nil =>
    intro i j tok h
    unfold searchIdx at h
    split at h
    · rename_i x hm
      injection h with h2
      rw [Prod.mk.injEq] at h2
      obtain ⟨h3, h4⟩ := h2
      subst h3
      subst h4
      refine ⟨Nat.le_refl _, by simpa using hm, ?_⟩
      intro t ht
      exact absurd ht (by omega)
    · exact absurd h (by simp)
  | cons c r ih =>
    intro i j tok h
    unfold searchIdx at h
    split at h
    · rename_i x hm
      injection h with h2
      rw [Prod.mk.injEq] at h2
      obtain ⟨h3, h4⟩ := h2
      subst h3
      subst h4
      refine ⟨Nat.le_refl _, by simpa using hm, ?_⟩
      intro t ht
      exact absurd ht (by omega)
    · rename_i hm
      obtain ⟨hle, hmatch, hnone⟩ := ih (i + 1) j tok h
      refine ⟨by omega, ?_, ?_⟩
      · have he : j - i = (j - (i + 1)) + 1 := by omega
        rw [he, List.drop_succ_cons]
        exact hmatch
      · intro t ht
        cases t with
        | zero => simpa using hm
        | succ t2 =>
          rw [List.drop_succ_cons]
          exact hnone t2 (by omega)

theorem take_min_eq (l : List Char) (n : Nat) : l.take (min n l.length) = l.take n := by
  rcases Nat.le_total n l.length with h | h
  · rw [min_eq_left h]
  · rw [min_eq_right h, List.take_length, List.take_of_length_le h]

theorem take_take_eq (l x : List Char) (n : Nat) (h : x = l.take n) :
    l.take x.length = x := by
  subst h
  rw [List.length_take]
  exact take_min_eq l n

theorem take_takeWhile (p : Char → Bool) (l : List Char) :
    l.take (l.takeWhile p).length = l.takeWhile p :=
  ( List.prefix_iff_eq_take.mp ( List.takeWhile_prefix p)).symm

/-
  Decomposition lemmas for the prefix matchers.
-/

theorem pSeq_some (a b : List Char → Option (List Char)) (l x : List Char)
    (h : pSeq a b l = some x) :
    ∃ y z, a l = some y ∧ b (l.drop y.length) = some z ∧ x = y ++ z := by
  unfold pSeq at h
  split at h
  · exact absurd h (by simp)
  · rename_i y hA
    split at h
    · exact absurd h (by simp)
    · rename_i z hB
      injection h with h2
      exact ⟨y, z, hA, hB, h2.symm⟩

theorem pAlt_some (a b : List Char → Option (List Char)) (l x : List Char)
    (h : pAlt a b l = some x) : a l = some x ∨ (a l = none ∧ b l = some x) := by
  unfold pAlt at h
  split at h
  · rename_i y hA
    left
    rw [hA]
    exact h
  · rename_i hA
    exact Or.inr ⟨hA, h⟩

theorem pOpt_some (a : List Char → Option (List Char)) (l x : List Char)
    (h : pOpt a l = some x) : a l = some x ∨ x = [] := by
  unfold pOpt at h
  split at h
  · rename_i y hA
    left
    rw [hA]
    exact h
  · right
    injection h with h2
    exact h2.symm

theorem pLit_some (pat l x : List Char) (h : pLit pat l = some x) :
    x = l.take pat.length ∧ pyLower x = pat := by
  unfold pLit at h
  split at h
  · rename_i hc
    injection h with h2
    refine ⟨h2.symm, ?_⟩
    rw [← h2]
    exact hc
  · simp at h

theorem pChar_some (c : Char) (l x : List Char) (h : pChar c l = some x) :
    x = [c] ∧ ∃ r, l = c :: r := by
  cases l with
  | nil => simp [pChar] at h
  | cons y r =>
    simp only [pChar] at h
    split at h
    · rename_i hc
      injection h with h2
      subst hc
      exact ⟨h2.symm, r, rfl⟩
    · exact absurd h (by simp)

theorem pEps_some (l x : List Char) (h : pEps l = some x) : x = [] := by
  unfold pEps at h
  injection h with h2
  exact h2.symm

theorem pSpaces0_some (l x : List Char) (h : pSpaces0 l = some x) :
    x = l.takeWhile isPySpace := by
  unfold pSpaces0 at h
  injection h with h2
  exact h2.symm

theorem pNumber_some (l x : List Char) (h : pNumber l = some x) :
    (x = l.takeWhile Char.isDigit ∧ x.isEmpty = false) ∨
    (∃ r2, l.drop (l.takeWhile Char.isDigit).length = '.' :: r2 ∧
      x = l.takeWhile Char.isDigit ++ '.' :: r2.takeWhile Char.isDigit ∧
      (l.takeWhile Char.isDigit).isEmpty = false ∧
      (r2.takeWhile Char.isDigit).isEmpty = false) := by
  unfold pNumber at h
  split at h
  · simp at h
  · rename_i hne
    split at h
    · rename_i r2 heq
      split at h
      · injection h with h2
        left
        refine ⟨h2.symm, ?_⟩
        rw [← h2]
        simpa using hne
      · rename_i hf
        injection h with h2
        right
        exact ⟨r2, heq, h2.symm, by simpa using hne, by simpa using hf⟩
    · injection h with h2
      left
      refine ⟨h2.symm, ?_⟩
      rw [← h2]
      simpa using hne

theorem pAnyUnitThen_some :
    ∀ (units : List (List Char)) (tail : List Char → Option (List Char)) (l x : List Char),
      pAnyUnitThen units tail l = some x →
      ∃ u a b, u ∈ units ∧ pLit u l = some a ∧ tail (l.drop a.length) = some b ∧ x = a ++ b := by
  intro units
  induction units with
  | nil =>
    intro tail l x h
    simp [pAnyUnitThen] at h
  | cons u us ih =>
    intro tail l x h
    unfold pAnyUnitThen at h
    rcases pAlt_some _ _ _ _ h with h1 | ⟨_, h2⟩
    · obtain ⟨a, b, ha, hb, hx⟩ := pSeq_some _ _ _ _ h1
      exact ⟨u, a, b, List.mem_cons_self u us, ha, hb, hx⟩
    · obtain ⟨u2, a, b, hmem, ha, hb, hx⟩ := ih tail l x h2
      exact ⟨u2, a, b, List.mem_cons_of_mem u hmem, ha, hb, hx⟩

/-
  Every matcher returns the consumed slice of the original text.
-/

theorem consumes_pLit (pat : List Char) :
    ∀ l x, pLit pat l = some x → l.take x.length = x :=
  fun l x h => take_take_eq l x pat.length (pLit_some pat l x h).1

theorem consumes_pChar (c : Char) :
    ∀ l x, pChar c l = some x → l.take x.length = x := by
  intro l x h
  obtain ⟨hx, r, hl⟩ := pChar_some c l x h
  subst hx
  subst hl
  rfl

theorem consumes_pEps : ∀ l x, pEps l = some x → l.take x.length = x := by
  intro l x h
  rw [pEps_some l x h]
  rfl

theorem consumes_pSpaces0 : ∀ l x, pSpaces0 l = some x → l.take x.length = x := by
  intro l x h
  rw [pSpaces0_some l x h]
  exact take_takeWhile isPySpace l

theorem consumes_pNumber : ∀ l x, pNumber l = some x → l.take x.length = x := by
  intro l x h
  rcases pNumber_some l x h with ⟨hx, _⟩ | ⟨r2, heq, hx, _, _⟩
  · rw [hx]
    exact take_takeWhile Char.isDigit l
  · subst hx
    rw [List.length_append, List.take_add, take_takeWhile]
    congr 1
    rw [heq]
    simp [List.take_succ_cons, take_takeWhile]

theorem consumes_pSeq (a b : List Char → Option (List Char))
    (ha : ∀ l x, a l = some x → l.take x.length = x)
    (hb : ∀ l x, b l = some x → l.take x.length = x) :
    ∀ l x, pSeq a b l = some x → l.take x.length = x := by
  intro l x h
  obtain ⟨y, z, hy, hz, hx⟩ := pSeq_some a b l x h
  subst hx
  rw [List.length_append, List.take_add, ha l y hy]
  congr 1
  exact hb _ z hz

theorem consumes_pAlt (a b : List Char → Option (List Char))
    (ha : ∀ l x, a l = some x → l.take x.length = x)
    (hb : ∀ l x, b l = some x → l.take x.length = x) :
    ∀ l x, pAlt a b l = some x → l.take x.length = x := by
  intro l x h
  rcases pAlt_some a b l x h with h1 | ⟨_, h2⟩
  · exact ha l x h1
  · exact hb l x h2

theorem consumes_pOpt (a : List Char → Option (List Char))
    (ha : ∀ l x, a l = some x → l.take x.length = x) :
    ∀ l x, pOpt a l = some x → l.take x.length = x := by
  intro l x h
  rcases pOpt_some a l x h with h1 | h1
  · exact ha l x h1
  · rw [h1]
    rfl

theorem consumes_pAnyUnitThen (units : List (List Char))
    (tail : List Char → Option (List Char))
    (htail : ∀ l x, tail l = some x → l.take x.length = x) :
    ∀ l x, pAnyUnitThen units tail l = some x → l.take x.length = x := by
  intro l x h
  obtain ⟨u, a, b, _, ha, hb, hx⟩ := pAnyUnitThen_some units tail l x h
  subst hx
  rw [List.length_append, List.take_add, consumes_pLit u l a ha]
  congr 1
  exact htail _ b hb

theorem consumes_ratioTailM : ∀ l x, ratioTailM l = some x → l.take x.length = x := by
  unfold ratioTailM
  exact consumes_pSeq _ _ (consumes_pChar '/')
    (consumes_pSeq _ _ (consumes_pOpt _ consumes_pNumber)
      (consumes_pSeq _ _ consumes_pSpaces0
        (consumes_pOpt _ (consumes_pAlt _ _ (consumes_pLit _) (consumes_pLit _)))))

theorem consumes_matchStrengthAt :
    ∀ l x, matchStrengthAt l = some x → l.take x.length = x := by
  unfold matchStrengthAt
  exact consumes_pAlt _ _
    (consumes_pSeq _ _ consumes_pNumber
      (consumes_pSeq _ _ consumes_pSpaces0
        (consumes_pAnyUnitThen _ _ consumes_ratioTailM)))
    (consumes_pSeq _ _ consumes_pNumber
      (consumes_pSeq _ _ consumes_pSpaces0
        (consumes_pAnyUnitThen _ _ consumes_pEps)))

/-
  Every strength match has the shape of the amended grammar.
-/

theorem isNumTok_intro1 (d : List Char) (h1 : d.isEmpty = false) (h2 : allDigits d = true) :
    isNumTok d = true := by
  unfold isNumTok
  have hm : (d, ([] : List Char)) ∈ splitsL d := by
    have hx := mem_splitsL d []
    rwa [List.append_nil] at hx
  exact List.any_eq_true.mpr ⟨(d, []), hm, by simp [h1, h2]⟩

theorem isNumTok_intro2 (d f : List Char) (h1 : d.isEmpty = false) (h2 : allDigits d = true)
    (h3 : f.isEmpty = false) (h4 : allDigits f = true) : isNumTok (d ++ '.' :: f) = true := by
  unfold isNumTok
  exact List.any_eq_true.mpr ⟨(d, '.' :: f), mem_splitsL d ('.' :: f), by simp [h1, h2, h3, h4]⟩

theorem pNumber_isNumTok (l x : List Char) (h : pNumber l = some x) : isNumTok x = true := by
  rcases pNumber_some l x h with ⟨hx, hne⟩ | ⟨r2, _, hx, hd, hf⟩
  · subst hx
    exact isNumTok_intro1 _ hne (allDigits_takeWhile l)
  · subst hx
    exact isNumTok_intro2 _ _ hd (allDigits_takeWhile l) hf (allDigits_takeWhile r2)

theorem pSpaces0_allSpace (l x : List Char) (h : pSpaces0 l = some x) : allSpace x = true := by
  rw [pSpaces0_some l x h]
  exact allSpace_takeWhile l

theorem isUnitIn_intro (us : List (List Char)) (u x : List Char) (hm : u ∈ us)
    (hx : pyLower x = u) : isUnitIn us x = true := by
  unfold isUnitIn
  exact List.any_eq_true.mpr ⟨u, hm, by simp [hx]⟩

theorem isRatioTailWith_intro (usDen : List (List Char)) (n2 sp u2 : List Char)
    (h1 : n2 = [] ∨ isNumTok n2 = true) (h2 : allSpace sp = true)
    (h3 : u2 = [] ∨ isUnitIn usDen u2 = true) :
    isRatioTailWith usDen (n2 ++ (sp ++ u2)) = true := by
  unfold isRatioTailWith
  apply List.any_eq_true.mpr
  refine ⟨(n2, sp ++ u2), mem_splitsL _ _, ?_⟩
  have hinner : (splitsL (sp ++ u2)).any
      (fun q => allSpace q.1 && (q.2.isEmpty || isUnitIn usDen q.2)) = true := by
    apply List.any_eq_true.mpr
    refine ⟨(sp, u2), mem_splitsL _ _, ?_⟩
    rcases h3 with h3 | h3
    · simp [h2, h3]
    · simp [h2, h3]
  rcases h1 with h1 | h1
  · simp [h1, hinner]
  · simp [h1, hinner]

theorem isRatioFormWith_intro (usNum usDen : List (List Char)) (num sp u tail : List Char)
    (h1 : isNumTok num = true) (h2 : allSpace sp = true) (h3 : isUnitIn usNum u = true)
    (h4 : isRatioTailWith usDen tail = true) :
    isRatioFormWith usNum usDen (num ++ (sp ++ (u ++ '/' :: tail))) = true := by
  unfold isRatioFormWith
  apply List.any_eq_true.mpr
  refine ⟨(num, sp ++ (u ++ '/' :: tail)), mem_splitsL _ _, ?_⟩
  simp only [h1, Bool.true_and]
  apply List.any_eq_true.mpr
  refine ⟨(sp, u ++ '/' :: tail), mem_splitsL _ _, ?_⟩
  simp only [h2, Bool.true_and]
  apply List.any_eq_true.mpr
  refine ⟨(u, '/' :: tail), mem_splitsL _ _, ?_⟩
  simp [h3, h4]

theorem isBareFormWith_intro (us : List (List Char)) (num sp u : List Char)
    (h1 : isNumTok num = true) (h2 : allSpace sp = true) (h3 : isUnitIn us u = true) :
    isBareFormWith us (num ++ (sp ++ u)) = true := by
  unfold isBareFormWith
  apply List.any_eq_true.mpr
  refine ⟨(num, sp ++ u), mem_splitsL _ _, ?_⟩
  simp only [h1, Bool.true_and]
  apply List.any_eq_true.mpr
  refine ⟨(sp, u), mem_splitsL _ _, ?_⟩
  simp [h2, h3]

theorem ratioTailM_shape (l x : List Char) (h : ratioTailM l = some x) :
    ∃ n2 sp u2, x = '/' :: (n2 ++ (sp ++ u2)) ∧
      (n2 = [] ∨ isNumTok n2 = true) ∧ allSpace sp = true ∧
      (u2 = [] ∨ isUnitIn ["ml".data, "l".data] u2 = true) := by
  unfold ratioTailM at h
  obtain ⟨sl, rest1, hsl, hrest1, hx⟩ := pSeq_some _ _ _ _ h
  obtain ⟨hslc, r, _⟩ := pChar_some _ _ _ hsl
  obtain ⟨n2, rest2, hn2, hrest2, hx2⟩ := pSeq_some _ _ _ _ hrest1
  obtain ⟨sp, u2, hsp, hu2, hx3⟩ := pSeq_some _ _ _ _ hrest2
  refine ⟨n2, sp, u2, ?_, ?_, ?_, ?_⟩
  · rw [hx, hx2, hx3, hslc]
    rfl
  · rcases pOpt_some _ _ _ hn2 with h1 | h1
    · exact Or.inr (pNumber_isNumTok _ _ h1)
    · exact Or.inl h1
  · exact pSpaces0_allSpace _ _ hsp
  · rcases pOpt_some _ _ _ hu2 with h1 | h1
    · rcases pAlt_some _ _ _ _ h1 with h2 | ⟨_, h2⟩
      · exact Or.inr (isUnitIn_intro _ _ _ (by simp) (pLit_some _ _ _ h2).2)
      · exact Or.inr (isUnitIn_intro _ _ _ (by simp) (pLit_some _ _ _ h2).2)
    · exact Or.inl h1

theorem matchStrengthAt_form (l tok : List Char) (h : matchStrengthAt l = some tok) :
    strengthFormAmended tok = true := by
  unfold matchStrengthAt at h
  rcases pAlt_some _ _ _ _ h with hR | ⟨_, hB⟩
  · obtain ⟨num, rest1, hnum, hrest1, hx⟩ := pSeq_some _ _ _ _ hR
    obtain ⟨sp, rest2, hsp, hrest2, hx2⟩ := pSeq_some _ _ _ _ hrest1
    obtain ⟨u, a, b, hmem, hLit, hTail, hx3⟩ := pAnyUnitThen_some _ _ _ _ hrest2
    obtain ⟨n2, sp2, u2, hb, hn2, hsp2, hu2⟩ := ratioTailM_shape _ _ hTail
    have htok : tok = num ++ (sp ++ (a ++ '/' :: (n2 ++ (sp2 ++ u2)))) := by
      rw [hx, hx2, hx3, hb]
    rw [htok]
    unfold strengthFormAmended
    rw [isRatioFormWith_intro ratioNumUnits _ num sp a _
      (pNumber_isNumTok _ _ hnum) (pSpaces0_allSpace _ _ hsp)
      (isUnitIn_intro _ u a hmem (pLit_some _ _ _ hLit).2)
      (isRatioTailWith_intro _ n2 sp2 u2 hn2 hsp2 hu2)]
    simp
  · obtain ⟨num, rest1, hnum, hrest1, hx⟩ := pSeq_some _ _ _ _ hB
    obtain ⟨sp, rest2, hsp, hrest2, hx2⟩ := pSeq_some _ _ _ _ hrest1
    obtain ⟨u, a, b, hmem, hLit, hEps, hx3⟩ := pAnyUnitThen_some _ _ _ _ hrest2
    have hbnil : b = [] := pEps_some _ _ hEps
    have htok : tok = num ++ (sp ++ a) := by
      rw [hx, hx2, hx3, hbnil, List.append_nil]
    rw [htok]
    unfold strengthFormAmended
    rw [isBareFormWith_intro bareUnits num sp a
      (pNumber_isNumTok _ _ hnum) (pSpaces0_allSpace _ _ hsp)
      (isUnitIn_intro _ u a hmem (pLit_some _ _ _ hLit).2)]
    simp

/-- C7 counterexample: the extracted strength of `Foo 5mg/2l` is
`5mg/2l`, whose denominator unit `l` is outside the claimed unit set
micrograms, mcg, mg, g, ml, percent, so the match does not have the
claimed grammar shape. -/
theorem c7_counterexample :
    searchStrength (("Foo 5mg/2l").data) = some (("5mg/2l").data) ∧
    strengthFormClaim (("5mg/2l").data) = false :=
  ⟨by decide, by decide⟩

/-- C7 (amended): the strength pattern matches either a ratio form
(number, whitespace, unit from micrograms, mcg, mg, g, ml, percent, a
slash, optional number, whitespace, optional unit from ml or l) or a
bare form (number, whitespace, unit from micrograms, mcg, mg, g, ml),
case-insensitively, with the leftmost match in the string winning; for
every raw string containing a recognizable strength token, the extracted
strength equals that token verbatim, as a slice of the source with case
preserved. -/
theorem c7_strength_match :
    (∀ s tok, searchStrength s = some tok →
      strengthFormAmended tok = true ∧
      ∃ i, (s.drop i).take tok.length = tok ∧ matchStrengthAt (s.drop i) = some tok ∧
        ∀ j, j < i → matchStrengthAt (s.drop j) = none) ∧
    (∀ s tok reply, searchStrength s = some tok →
      jget (extract_components_regex s reply) kStrength = some tok) := by
  constructor
  · intro s tok h
    unfold searchStrength reSearch at h
    cases hs : searchIdx matchStrengthAt 0 s with
    | none => rw [hs] at h; simp at h
    | some p =>
      rw [hs] at h
      obtain ⟨j, x⟩ := p
      simp at h
      subst h
      obtain ⟨_, hmatch, hnone⟩ := searchIdx_spec matchStrengthAt s 0 j x hs
      rw [Nat.sub_zero] at hmatch
      refine ⟨matchStrengthAt_form _ _ hmatch, j,
        consumes_matchStrengthAt _ _ hmatch, hmatch, ?_⟩
      intro t ht
      exact hnone t (by omega)
  · intro s tok reply h
    have hne : ¬(kName = kStrength) := by decide
    have hb : jget (regexBase s) kStrength = some ((searchStrength s).getD []) := by
      simp [regexBase, jget, hne]
    have hval : (searchStrength s).getD [] = tok := by
      rw [h]
      rfl
    unfold extract_components_regex
    split
    · split
      · rw [jget_append_singleton kDuration _ kStrength (by decide), hb, hval]
      · rw [jget_append_singleton kDuration _ kStrength (by decide), hb, hval]
    · rw [hb, hval]

/-- C7 witness: the strength token of the running example. -/
theorem c7_strength_match_witness :
    searchStrength (("Generic Aspirin 325mg tablets").data) = some (("325mg").data) ∧
    strengthFormAmended (("325mg").data) = true ∧
    jget (extract_components_regex (("Generic Aspirin 325mg tablets").data) none) kStrength =
      some (("325mg").data) :=
  ⟨by decide,
    (c7_strength_match.1 (("Generic Aspirin 325mg tablets").data) (("325mg").data)
      (by decide)).1,
    c7_strength_match.2 (("Generic Aspirin 325mg tablets").data) (("325mg").data) none
      (by decide)⟩

end MedProc
